import Mathlib

/-!
Verification of the planner-mediated multi-agent coordination loop of the
autogen development framework (`src/chat.py`, `src/agents/tester.py`).

The Python code is shallowly embedded:
* `TaskResult` mirrors the dataclass in `chat.py`.
* The model-client side of an agent invocation (`agent.execute_task` followed
  by `stream.get_final_response`) is abstracted as an environment function
  `AgentEnv` that, for a given agent name, task and context, either returns a
  response or raises an exception (`Except.error` with the stringified
  exception, i.e. Python `str(e)`).
* `execute_agent_task` mirrors `DevelopmentChat._execute_agent_task`: the pool
  lookup `self.agent_pool[agent_name]` happens BEFORE the `try:` block, so an
  unknown agent name surfaces as an uncaught `KeyError` (`Except.error` at the
  level of `execute_agent_task` itself), while exceptions from the agent call
  are caught and converted to a failed `TaskResult`.
* `runBatch` mirrors the inner `for step in plan_result.next_steps:` loop of
  `_plan_and_execute`, including the `break` on the first failed step; it also
  records the ordered list of performed agent invocations (the "stub agent
  pool recording invocation order" of the spec).
* `planLoop` mirrors the outer `while project_state['status'] == 'in_progress':`
  loop, driven by a planner function.  The planner receives the number of
  planning calls made so far together with the current project state; a real
  planner ignores the counter, while the stubs quantified over in the spec's
  testable properties use it.  Since the Python loop need not terminate,
  `planLoop` takes explicit fuel and returns `none` when the fuel is exhausted
  before the loop exits; it also returns the trace of project states observed
  at each planning call.
* `execute_tests` mirrors `TestingAgent.execute_tests`, parametrised by the
  behaviour of `_run_tests` (stubbed in the source to always succeed) and
  recording whether, and with which argument, the `_coordinate_with_debugger`
  hook was invoked.
* `chat_loop_step` mirrors the dispatch on one line of user input in
  `DevelopmentChat.chat_loop`.
-/

/-- `TaskResult` dataclass from `chat.py`: container for task execution
results from each agent.  `output` is opaque in the source (`Any`); it is
modelled as an optional string. -/
structure TaskResult where
  success : Bool
  output : Option String
  message : String
  next_steps : Option (List String) := none
deriving DecidableEq

/-- The final response produced by a successful agent stream
(`result.output`, `result.message`, `result.suggested_next_steps`). -/
structure AgentResponse where
  output : String
  message : String
  suggested_next_steps : Option (List String)
deriving DecidableEq

/-- `project_state['context']`: a mapping of arbitrary key/value pairs. -/
def Ctx : Type := List (String × String)

instance : DecidableEq Ctx := by unfold Ctx; infer_instance

/-- The behaviour of the model-client side of one agent invocation:
`Except.error e` models the agent call raising an exception whose
stringification is `e`. -/
def AgentEnv : Type := String → String → Ctx → Except String AgentResponse

/-- The keys of `self.agent_pool` built by `_initialize_agent_pool`.  The
agent instances themselves are opaque wrappers around the model client, so
they are abstracted into the `AgentEnv`; only the key set matters for
dispatch. -/
def agent_pool : List String := ["coder", "executor", "debugger", "tester"]

/-- `DevelopmentChat._execute_agent_task`.  The dictionary lookup
`self.agent_pool[agent_name]` is performed before the `try:` block, so a
missing key raises `KeyError` out of the method (modelled as `Except.error`);
any exception from the agent call inside the `try:` is caught and converted
into a failed `TaskResult` with message
`f"Error during {agent_name} task execution: {str(e)}"`. -/
def execute_agent_task (env : AgentEnv) (agent_name : String) (task : String)
    (context : Ctx) : Except String TaskResult :=
  if agent_pool.contains agent_name then
    match env agent_name task context with
    | Except.ok result =>
        Except.ok { success := true, output := some result.output,
                    message := result.message,
                    next_steps := result.suggested_next_steps }
    | Except.error e =>
        Except.ok { success := false, output := none,
                    message := "Error during " ++ agent_name ++
                               " task execution: " ++ e,
                    next_steps := none }
  else
    Except.error ("KeyError: " ++ agent_name)

/-- One step of a plan: `{'agent': ..., 'task': ...}`. -/
structure PlanStep where
  agent : String
  task : String
deriving DecidableEq

/-- The value returned by `self.planner.plan_next_steps`. -/
structure PlanResult where
  is_complete : Bool
  next_steps : List PlanStep
  next_phase : String
deriving DecidableEq

/-- One record appended to `project_state['history']`. -/
structure HistoryEntry where
  phase : String
  agent : String
  task : String
  result : TaskResult
deriving DecidableEq

/-- `project_state` of `_plan_and_execute`.  `results` is a Python dict,
modelled as an association list with in-place overwrite (`dictSet`). -/
structure ProjectState where
  status : String
  current_phase : String
  results : List (String × TaskResult)
  context : Ctx
  history : List HistoryEntry
deriving DecidableEq

/-- Python dict assignment `d[k] = v`: replace the value in place if the key
is present, otherwise append the pair. -/
def dictSet (m : List (String × TaskResult)) (k : String) (v : TaskResult) :
    List (String × TaskResult) :=
  match m with
  | [] => [(k, v)]
  | (k0, v0) :: rest =>
      if k0 = k then (k, v) :: rest else (k0, v0) :: dictSet rest k v

/-- Python dict lookup `d.get(k)`. -/
def dictGet (m : List (String × TaskResult)) (k : String) : Option TaskResult :=
  match m with
  | [] => none
  | (k0, v0) :: rest => if k0 = k then some v0 else dictGet rest k

/-- Number of entries of the mapping carrying key `k`. -/
def countKey (m : List (String × TaskResult)) (k : String) : Nat :=
  (m.filter (fun p => decide (p.1 = k))).length

/-- Outcome of one execution batch (the `for step in plan_result.next_steps:`
loop body of `_plan_and_execute`): `exn` is the exception escaping the loop,
if any; `state` the project state after the loop; `invoked` the ordered list
of performed agent invocations with their `TaskResult`s. -/
structure BatchOutcome where
  exn : Option String
  state : ProjectState
  invoked : List (PlanStep × TaskResult)
deriving DecidableEq

/-- The project-state update performed after each executed step of
`_plan_and_execute`: overwrite `project_state['results'][agent_name]` and
append the `{phase, agent, task, result}` record to
`project_state['history']`. -/
def stepState (st : ProjectState) (step : PlanStep) (result : TaskResult) :
    ProjectState :=
  { st with
    results := dictSet st.results step.agent result,
    history := st.history ++
      [{ phase := st.current_phase, agent := step.agent,
         task := step.task, result := result }] }

/-- The `for step in plan_result.next_steps:` loop of `_plan_and_execute`:
execute each step in order with `execute_agent_task`, update the project
state, and `break` after the first step whose `TaskResult` has
`success = false`.  An uncaught exception from `execute_agent_task` (the
`KeyError` of an unknown agent) aborts the loop and propagates. -/
def runBatch (env : AgentEnv) : List PlanStep → ProjectState → BatchOutcome
  | [], st => ⟨none, st, []⟩
  | step :: rest, st =>
    match execute_agent_task env step.agent step.task st.context with
    | Except.error e => ⟨some e, st, []⟩
    | Except.ok result =>
      if result.success then
        let o := runBatch env rest (stepState st step result)
        ⟨o.exn, o.state, (step, result) :: o.invoked⟩
      else
        ⟨none, stepState st step result, [(step, result)]⟩

/-- The behaviour of `self.planner.plan_next_steps(task, current_state)` for a
fixed task: its arguments are the number of planning calls already made (the
internal state of a planner stub) and the current project state. -/
def Planner : Type := Nat → ProjectState → PlanResult

/-- The `while project_state['status'] == 'in_progress':` loop of
`_plan_and_execute`, with explicit fuel since the Python loop is unbounded.
Returns `Except.error e` when an exception escapes the loop, `Except.ok none`
when the fuel ran out with the loop still running, and
`Except.ok (some (fin, tr))` when the loop exited with final state `fin`,
where `tr` is the list of project states observed at each planning call, in
order. -/
def planLoop (env : AgentEnv) (planner : Planner) :
    Nat → Nat → ProjectState →
    Except String (Option (ProjectState × List ProjectState))
  | 0, _, _ => Except.ok none
  | fuel + 1, calls, st =>
    if st.status = "in_progress" then
      let pr := planner calls st
      if pr.is_complete then
        Except.ok (some ({ st with status := "completed" }, [st]))
      else
        let o := runBatch env pr.next_steps st
        match o.exn with
        | some e => Except.error e
        | none =>
          match planLoop env planner fuel (calls + 1)
              { o.state with current_phase := pr.next_phase } with
          | Except.error e => Except.error e
          | Except.ok none => Except.ok none
          | Except.ok (some (fin, tr)) => Except.ok (some (fin, st :: tr))
    else
      Except.ok (some (st, []))

/-- The fresh `project_state` built at the top of `_plan_and_execute`. -/
def initialProjectState : ProjectState :=
  { status := "in_progress", current_phase := "planning",
    results := [], context := [], history := [] }

/-- `DevelopmentChat._plan_and_execute(task)`: build a fresh project state and
run the planning/execution loop.  The task text is only ever passed through to
the planner. -/
def plan_and_execute (env : AgentEnv) (planner : String → Planner)
    (task : String) (fuel : Nat) :
    Except String (Option (ProjectState × List ProjectState)) :=
  planLoop env (planner task) fuel 0 initialProjectState

/-- The most recent `TaskResult` recorded for agent role `a` in an ordered
invocation list (rightmost occurrence wins). -/
def lastFor (a : String) : List (PlanStep × TaskResult) → Option TaskResult
  | [] => none
  | p :: rest =>
    match lastFor a rest with
    | some r => some r
    | none => if p.1.agent = a then some p.2 else none

/-- The dict returned by `TestingAgent._run_tests` (and by a stubbed variant):
`{'success': ..., 'errors': ..., 'message': ...}`. -/
structure TestResults where
  success : Bool
  errors : Option (List String)
  message : String
deriving DecidableEq

/-- `TestingAgent._run_tests` as written in the source: a placeholder that
always reports success. -/
def run_tests (_code : String) : TestResults :=
  { success := true, errors := none, message := "All tests passed successfully." }

/-- `TestingAgent.execute_tests`, parametrised by the behaviour of
`self._run_tests` (so that stubbed testers are covered).  The second component
records the invocation of the no-op `_coordinate_with_debugger` hook: `none`
when the hook was not invoked, `some errs` when it was invoked with argument
`errs` (which is `test_results['errors']`).  The first component is the
returned `test_results`. -/
def execute_tests (runTestsImpl : String → TestResults) (code : String) :
    TestResults × Option (Option (List String)) :=
  let test_results := runTestsImpl code
  if test_results.success then
    (test_results, none)
  else
    (test_results, some test_results.errors)

/-- The decision taken by one turn of `DevelopmentChat.chat_loop` on a line of
user input. -/
inductive ChatAction where
  | terminate (farewell : String)
  | newTask (task : String)
deriving DecidableEq

/-- Python `str.lower()`: lowercase every character.  (Character-wise map,
stated structurally over the string's character data so that the kernel can
evaluate it; extensionally this is `String.toLower`.) -/
def lowerStr (s : String) : String := ⟨s.data.map Char.toLower⟩

/-- The dispatch `if user_input.lower() == 'exit': print("Goodbye!"); break`
of `chat_loop`: any other input becomes a new development task. -/
def chat_loop_step (user_input : String) : ChatAction :=
  if lowerStr user_input = "exit" then ChatAction.terminate "Goodbye!"
  else ChatAction.newTask user_input

deriving instance DecidableEq for Except

/-! ### Concrete environments, planners and stubs used as witnesses -/

/-- An agent environment in which every agent call succeeds. -/
def envAllOk : AgentEnv := fun _ _ _ =>
  Except.ok { output := "code", message := "done", suggested_next_steps := none }

/-- An agent environment in which the coder's model call raises and every
other agent call succeeds. -/
def envCoderRaises : AgentEnv := fun name _ _ =>
  if name = "coder" then Except.error "RuntimeError: model timeout"
  else Except.ok { output := "code", message := "done",
                   suggested_next_steps := none }

/-- A planner stub: one batch with a single coder step on the first call,
completion on the second call. -/
def plannerDoneAtTwo : Planner := fun i _ =>
  if i = 0 then
    { is_complete := false,
      next_steps := [{ agent := "coder", task := "write add function" }],
      next_phase := "implementation" }
  else { is_complete := true, next_steps := [], next_phase := "review" }

/-- A `_run_tests` stub reporting a failure with a populated errors list. -/
def runTestsFailing : String → TestResults := fun _ =>
  { success := false, errors := some ["AssertionError: expected 3"],
    message := "1 test failed" }

/-! ### Association-list (Python dict) lemmas -/

/-- The key list of the mapping, in insertion order (as a Python dict). -/
def keysOf (m : List (String × TaskResult)) : List String := m.map Prod.fst

theorem keysOf_cons (k0 : String) (v0 : TaskResult)
    (rest : List (String × TaskResult)) :
    keysOf ((k0, v0) :: rest) = k0 :: keysOf rest := rfl

theorem dictGet_dictSet (m : List (String × TaskResult)) (k a : String)
    (v : TaskResult) :
    dictGet (dictSet m k v) a = if k = a then some v else dictGet m a := by
  induction m with
  | nil => simp [dictSet, dictGet]
  | cons p rest ih =>
    obtain ⟨k0, v0⟩ := p
    by_cases h0 : k0 = k
    · subst h0
      by_cases h1 : k0 = a
      · subst h1; simp [dictSet, dictGet]
      · simp [dictSet, dictGet, h1]
    · by_cases h1 : k0 = a
      · subst h1
        have hka : ¬ k = k0 := fun h => h0 h.symm
        simp [dictSet, dictGet, h0, hka]
      · simp [dictSet, dictGet, h0, h1, ih]

theorem mem_keysOf_dictSet (m : List (String × TaskResult)) (k a : String)
    (v : TaskResult) :
    a ∈ keysOf (dictSet m k v) ↔ a = k ∨ a ∈ keysOf m := by
  induction m with
  | nil => simp [dictSet, keysOf]
  | cons p rest ih =>
    obtain ⟨k0, v0⟩ := p
    by_cases h0 : k0 = k
    · subst h0
      simp [dictSet, keysOf_cons, List.mem_cons]
    · simp only [dictSet, if_neg h0, keysOf_cons, List.mem_cons, ih]
      tauto

theorem nodup_keysOf_dictSet (m : List (String × TaskResult)) (k : String)
    (v : TaskResult) (h : (keysOf m).Nodup) :
    (keysOf (dictSet m k v)).Nodup := by
  induction m with
  | nil => simp [dictSet, keysOf]
  | cons p rest ih =>
    obtain ⟨k0, v0⟩ := p
    rw [keysOf_cons, List.nodup_cons] at h
    by_cases h0 : k0 = k
    · subst h0
      simpa [dictSet, keysOf_cons, List.nodup_cons] using h
    · simp only [dictSet, if_neg h0, keysOf_cons, List.nodup_cons]
      refine ⟨fun hmem => ?_, ih h.2⟩
      rcases (mem_keysOf_dictSet rest k k0 v).mp hmem with h1 | h1
      · exact h0 h1
      · exact h.1 h1

theorem countKey_cons (k0 : String) (v0 : TaskResult)
    (rest : List (String × TaskResult)) (a : String) :
    countKey ((k0, v0) :: rest) a =
      if k0 = a then countKey rest a + 1 else countKey rest a := by
  by_cases h : k0 = a <;> simp [countKey, List.filter_cons, h]

theorem countKey_eq_zero (m : List (String × TaskResult)) (a : String)
    (h : a ∉ keysOf m) : countKey m a = 0 := by
  induction m with
  | nil => rfl
  | cons p rest ih =>
    obtain ⟨k0, v0⟩ := p
    rw [keysOf_cons, List.mem_cons] at h
    push_neg at h
    have hne : ¬ k0 = a := fun he => h.1 he.symm
    rw [countKey_cons, if_neg hne]
    exact ih h.2

theorem countKey_of_dictGet (m : List (String × TaskResult)) (a : String)
    (r : TaskResult) (hnd : (keysOf m).Nodup)
    (hget : dictGet m a = some r) : countKey m a = 1 := by
  induction m with
  | nil => simp [dictGet] at hget
  | cons p rest ih =>
    obtain ⟨k0, v0⟩ := p
    rw [keysOf_cons, List.nodup_cons] at hnd
    by_cases h0 : k0 = a
    · subst h0
      rw [countKey_cons, if_pos rfl, countKey_eq_zero rest k0 hnd.1]
    · rw [dictGet, if_neg h0] at hget
      rw [countKey_cons, if_neg h0]
      exact ih hnd.2 hget

/-! ### Structural lemmas about one execution batch (`runBatch`) -/

theorem execute_agent_task_of_ok (env : AgentEnv) (name task : String)
    (ctx : Ctx) (resp : AgentResponse) (hmem : name ∈ agent_pool)
    (henv : env name task ctx = Except.ok resp) :
    execute_agent_task env name task ctx =
      Except.ok { success := true, output := some resp.output,
                  message := resp.message,
                  next_steps := resp.suggested_next_steps } := by
  simp [execute_agent_task, hmem, henv]

theorem execute_agent_task_of_error (env : AgentEnv) (name task : String)
    (ctx : Ctx) (e : String) (hmem : name ∈ agent_pool)
    (henv : env name task ctx = Except.error e) :
    execute_agent_task env name task ctx =
      Except.ok { success := false, output := none,
                  message := "Error during " ++ name ++
                             " task execution: " ++ e,
                  next_steps := none } := by
  simp [execute_agent_task, hmem, henv]

theorem execute_agent_task_unknown (env : AgentEnv) (name task : String)
    (ctx : Ctx) (hmem : name ∉ agent_pool) :
    execute_agent_task env name task ctx =
      Except.error ("KeyError: " ++ name) := by
  simp [execute_agent_task, hmem]

theorem runBatch_nil (env : AgentEnv) (st : ProjectState) :
    runBatch env [] st = ⟨none, st, []⟩ := rfl

theorem runBatch_cons_error (env : AgentEnv) (step : PlanStep)
    (rest : List PlanStep) (st : ProjectState) (e : String)
    (hx : execute_agent_task env step.agent step.task st.context =
      Except.error e) :
    runBatch env (step :: rest) st = ⟨some e, st, []⟩ := by
  simp [runBatch, hx]

theorem runBatch_cons_ok_true (env : AgentEnv) (step : PlanStep)
    (rest : List PlanStep) (st : ProjectState) (result : TaskResult)
    (hx : execute_agent_task env step.agent step.task st.context =
      Except.ok result) (hs : result.success = true) :
    runBatch env (step :: rest) st =
      ⟨(runBatch env rest (stepState st step result)).exn,
       (runBatch env rest (stepState st step result)).state,
       (step, result) :: (runBatch env rest (stepState st step result)).invoked⟩ := by
  simp [runBatch, hx, hs]

theorem runBatch_cons_ok_false (env : AgentEnv) (step : PlanStep)
    (rest : List PlanStep) (st : ProjectState) (result : TaskResult)
    (hx : execute_agent_task env step.agent step.task st.context =
      Except.ok result) (hs : result.success = false) :
    runBatch env (step :: rest) st =
      ⟨none, stepState st step result, [(step, result)]⟩ := by
  simp [runBatch, hx, hs]

theorem stepState_status (st : ProjectState) (step : PlanStep)
    (result : TaskResult) : (stepState st step result).status = st.status := rfl

theorem stepState_phase (st : ProjectState) (step : PlanStep)
    (result : TaskResult) :
    (stepState st step result).current_phase = st.current_phase := rfl

theorem stepState_context (st : ProjectState) (step : PlanStep)
    (result : TaskResult) : (stepState st step result).context = st.context := rfl

theorem runBatch_preserve (env : AgentEnv) :
    ∀ (steps : List PlanStep) (st : ProjectState),
    (runBatch env steps st).state.status = st.status ∧
    (runBatch env steps st).state.current_phase = st.current_phase ∧
    (runBatch env steps st).state.context = st.context := by
  intro steps
  induction steps with
  | nil => intro st; exact ⟨rfl, rfl, rfl⟩
  | cons step rest ih =>
    intro st
    cases hx : execute_agent_task env step.agent step.task st.context with
    | error e =>
      rw [runBatch_cons_error env step rest st e hx]
      exact ⟨rfl, rfl, rfl⟩
    | ok result =>
      cases hs : result.success with
      | true =>
        rw [runBatch_cons_ok_true env step rest st result hx hs]
        exact ih (stepState st step result)
      | false =>
        rw [runBatch_cons_ok_false env step rest st result hx hs]
        exact ⟨rfl, rfl, rfl⟩

theorem runBatch_history (env : AgentEnv) :
    ∀ (steps : List PlanStep) (st : ProjectState),
    (runBatch env steps st).state.history = st.history ++
      (runBatch env steps st).invoked.map
        (fun p => { phase := st.current_phase, agent := p.1.agent,
                    task := p.1.task, result := p.2 }) := by
  intro steps
  induction steps with
  | nil => intro st; simp [runBatch_nil]
  | cons step rest ih =>
    intro st
    cases hx : execute_agent_task env step.agent step.task st.context with
    | error e => simp [runBatch_cons_error env step rest st e hx]
    | ok result =>
      cases hs : result.success with
      | true =>
        rw [runBatch_cons_ok_true env step rest st result hx hs]
        have := ih (stepState st step result)
        simp only [stepState, List.map_cons] at this ⊢
        rw [this]
        simp
      | false =>
        rw [runBatch_cons_ok_false env step rest st result hx hs]
        simp [stepState]

theorem runBatch_results (env : AgentEnv) :
    ∀ (steps : List PlanStep) (st : ProjectState) (a : String),
    dictGet (runBatch env steps st).state.results a =
      match lastFor a (runBatch env steps st).invoked with
      | some r => some r
      | none => dictGet st.results a := by
  intro steps
  induction steps with
  | nil => intro st a; simp [runBatch_nil, lastFor]
  | cons step rest ih =>
    intro st a
    cases hx : execute_agent_task env step.agent step.task st.context with
    | error e => simp [runBatch_cons_error env step rest st e hx, lastFor]
    | ok result =>
      cases hs : result.success with
      | true =>
        rw [runBatch_cons_ok_true env step rest st result hx hs]
        have := ih (stepState st step result) a
        simp only [lastFor] at this ⊢
        rw [this]
        cases lastFor a (runBatch env rest (stepState st step result)).invoked with
        | some r => rfl
        | none =>
          simp only [stepState]
          rw [dictGet_dictSet]
          by_cases ha : step.agent = a <;> simp [ha]
      | false =>
        rw [runBatch_cons_ok_false env step rest st result hx hs]
        simp only [lastFor, stepState]
        rw [dictGet_dictSet]
        by_cases ha : step.agent = a <;> simp [ha]

theorem runBatch_invoked_fst (env : AgentEnv) :
    ∀ (steps : List PlanStep) (st : ProjectState),
    (runBatch env steps st).invoked.map Prod.fst =
      steps.take (runBatch env steps st).invoked.length := by
  intro steps
  induction steps with
  | nil => intro st; simp [runBatch_nil]
  | cons step rest ih =>
    intro st
    cases hx : execute_agent_task env step.agent step.task st.context with
    | error e => simp [runBatch_cons_error env step rest st e hx]
    | ok result =>
      cases hs : result.success with
      | true =>
        rw [runBatch_cons_ok_true env step rest st result hx hs]
        simp only [List.map_cons, List.length_cons, List.take_succ_cons]
        rw [ih]
      | false =>
        rw [runBatch_cons_ok_false env step rest st result hx hs]
        simp

theorem runBatch_fail_last (env : AgentEnv) :
    ∀ (steps : List PlanStep) (st : ProjectState) (k : Nat)
    (p : PlanStep × TaskResult),
    (runBatch env steps st).invoked.get? k = some p →
    p.2.success = false →
    (runBatch env steps st).invoked.length = k + 1 := by
  intro steps
  induction steps with
  | nil =>
    intro st k p hget
    rw [runBatch_nil] at hget
    simp at hget
  | cons step rest ih =>
    intro st k p hget hfail
    cases hx : execute_agent_task env step.agent step.task st.context with
    | error e =>
      rw [runBatch_cons_error env step rest st e hx] at hget
      simp at hget
    | ok result =>
      cases hs : result.success with
      | true =>
        rw [runBatch_cons_ok_true env step rest st result hx hs] at hget ⊢
        cases k with
        | zero =>
          rw [List.get?_cons_zero] at hget
          injection hget with h
          rw [← h] at hfail
          simp [hs] at hfail
        | succ j =>
          rw [List.get?_cons_succ] at hget
          simp only [List.length_cons]
          rw [ih _ j p hget hfail]
      | false =>
        rw [runBatch_cons_ok_false env step rest st result hx hs] at hget ⊢
        cases k with
        | zero => simp
        | succ j => simp at hget

theorem runBatch_exn_none (env : AgentEnv) :
    ∀ (steps : List PlanStep) (st : ProjectState),
    (∀ s ∈ steps, s.agent ∈ agent_pool) →
    (runBatch env steps st).exn = none := by
  intro steps
  induction steps with
  | nil => intro st _; rfl
  | cons step rest ih =>
    intro st hall
    have hmem : step.agent ∈ agent_pool := hall step (List.mem_cons_self _ _)
    cases henv : env step.agent step.task st.context with
    | ok resp =>
      rw [runBatch_cons_ok_true env step rest st _
        (execute_agent_task_of_ok env step.agent step.task st.context resp
          hmem henv) rfl]
      exact ih _ (fun s hs => hall s (List.mem_cons_of_mem _ hs))
    | error e =>
      rw [runBatch_cons_ok_false env step rest st _
        (execute_agent_task_of_error env step.agent step.task st.context e
          hmem henv) rfl]

theorem runBatch_nodup_keys (env : AgentEnv) :
    ∀ (steps : List PlanStep) (st : ProjectState),
    (keysOf st.results).Nodup →
    (keysOf (runBatch env steps st).state.results).Nodup := by
  intro steps
  induction steps with
  | nil => intro st h; exact h
  | cons step rest ih =>
    intro st h
    cases hx : execute_agent_task env step.agent step.task st.context with
    | error e =>
      rw [runBatch_cons_error env step rest st e hx]
      exact h
    | ok result =>
      cases hs : result.success with
      | true =>
        rw [runBatch_cons_ok_true env step rest st result hx hs]
        exact ih _ (nodup_keysOf_dictSet _ _ _ h)
      | false =>
        rw [runBatch_cons_ok_false env step rest st result hx hs]
        exact nodup_keysOf_dictSet _ _ _ h

/-! ### Structural lemmas about the planning/execution loop (`planLoop`) -/

theorem planLoop_zero (env : AgentEnv) (p : Planner) (calls : Nat)
    (st : ProjectState) : planLoop env p 0 calls st = Except.ok none := rfl

theorem planLoop_succ_exited (env : AgentEnv) (p : Planner) (fuel calls : Nat)
    (st : ProjectState) (h : ¬ st.status = "in_progress") :
    planLoop env p (fuel + 1) calls st = Except.ok (some (st, [])) := by
  simp [planLoop, h]

theorem planLoop_succ_complete (env : AgentEnv) (p : Planner) (fuel calls : Nat)
    (st : ProjectState) (h : st.status = "in_progress")
    (hc : (p calls st).is_complete = true) :
    planLoop env p (fuel + 1) calls st =
      Except.ok (some ({ st with status := "completed" }, [st])) := by
  simp [planLoop, h, hc]

theorem planLoop_succ_step (env : AgentEnv) (p : Planner) (fuel calls : Nat)
    (st : ProjectState) (h : st.status = "in_progress")
    (hc : (p calls st).is_complete = false)
    (hexn : (runBatch env (p calls st).next_steps st).exn = none) :
    planLoop env p (fuel + 1) calls st =
      match planLoop env p fuel (calls + 1)
          { (runBatch env (p calls st).next_steps st).state with
            current_phase := (p calls st).next_phase } with
      | Except.error e => Except.error e
      | Except.ok none => Except.ok none
      | Except.ok (some (fin, tr)) => Except.ok (some (fin, st :: tr)) := by
  simp [planLoop, h, hc, hexn]

theorem planLoop_head (env : AgentEnv) (p : Planner) :
    ∀ (fuel calls : Nat) (st fin : ProjectState) (tr : List ProjectState),
    st.status = "in_progress" →
    planLoop env p fuel calls st = Except.ok (some (fin, tr)) →
    ∃ tr0, tr = st :: tr0 := by
  intro fuel calls st fin tr h hrun
  cases fuel with
  | zero => rw [planLoop_zero] at hrun; simp at hrun
  | succ fuel =>
    cases hc : (p calls st).is_complete with
    | true =>
      rw [planLoop_succ_complete env p fuel calls st h hc] at hrun
      simp at hrun
      exact ⟨[], hrun.2.symm⟩
    | false =>
      cases hexn : (runBatch env (p calls st).next_steps st).exn with
      | some e =>
        simp [planLoop, h, hc, hexn] at hrun
      | none =>
        rw [planLoop_succ_step env p fuel calls st h hc hexn] at hrun
        cases hrec : planLoop env p fuel (calls + 1)
            { (runBatch env (p calls st).next_steps st).state with
              current_phase := (p calls st).next_phase } with
        | error e => rw [hrec] at hrun; simp at hrun
        | ok orec =>
          rw [hrec] at hrun
          cases orec with
          | none => simp at hrun
          | some pair =>
            obtain ⟨fin2, tr2⟩ := pair
            simp at hrun
            exact ⟨tr2, hrun.2.symm⟩

theorem planLoop_invariant (env : AgentEnv) (p : Planner) :
    ∀ (fuel calls : Nat) (st fin : ProjectState) (tr : List ProjectState),
    st.status = "in_progress" →
    planLoop env p fuel calls st = Except.ok (some (fin, tr)) →
    fin.status = "completed" ∧ ∀ s ∈ tr, s.status = "in_progress" := by
  intro fuel
  induction fuel with
  | zero =>
    intro calls st fin tr h hrun
    rw [planLoop_zero] at hrun
    simp at hrun
  | succ fuel ih =>
    intro calls st fin tr h hrun
    cases hc : (p calls st).is_complete with
    | true =>
      rw [planLoop_succ_complete env p fuel calls st h hc] at hrun
      simp at hrun
      constructor
      · rw [← hrun.1]
      · rw [← hrun.2]
        intro s hs
        simp at hs
        rw [hs]
        exact h
    | false =>
      cases hexn : (runBatch env (p calls st).next_steps st).exn with
      | some e => simp [planLoop, h, hc, hexn] at hrun
      | none =>
        rw [planLoop_succ_step env p fuel calls st h hc hexn] at hrun
        cases hrec : planLoop env p fuel (calls + 1)
            { (runBatch env (p calls st).next_steps st).state with
              current_phase := (p calls st).next_phase } with
        | error e => rw [hrec] at hrun; simp at hrun
        | ok orec =>
          rw [hrec] at hrun
          cases orec with
          | none => simp at hrun
          | some pair =>
            obtain ⟨fin2, tr2⟩ := pair
            simp at hrun
            have hst2 : ({ (runBatch env (p calls st).next_steps st).state with
                current_phase := (p calls st).next_phase } : ProjectState).status
                = "in_progress" := by
              have hp := (runBatch_preserve env (p calls st).next_steps st).1
              rw [h] at hp
              exact hp
            have hinv := ih (calls + 1) _ fin2 tr2 hst2 hrec
            constructor
            · rw [← hrun.1]; exact hinv.1
            · rw [← hrun.2]
              intro s hs
              rcases List.mem_cons.mp hs with hs | hs
              · rw [hs]; exact h
              · exact hinv.2 s hs

theorem planLoop_never (env : AgentEnv) (p : Planner)
    (hinc : ∀ (i : Nat) (st : ProjectState), (p i st).is_complete = false)
    (hag : ∀ (i : Nat) (st : ProjectState) (s : PlanStep),
      s ∈ (p i st).next_steps → s.agent ∈ agent_pool) :
    ∀ (fuel calls : Nat) (st : ProjectState), st.status = "in_progress" →
    planLoop env p fuel calls st = Except.ok none := by
  intro fuel
  induction fuel with
  | zero => intro calls st _; rfl
  | succ fuel ih =>
    intro calls st h
    have hexn : (runBatch env (p calls st).next_steps st).exn = none :=
      runBatch_exn_none env _ st (fun s hs => hag calls st s hs)
    rw [planLoop_succ_step env p fuel calls st h (hinc calls st) hexn]
    have hst2 : ({ (runBatch env (p calls st).next_steps st).state with
        current_phase := (p calls st).next_phase } : ProjectState).status
        = "in_progress" := by
      have hp := (runBatch_preserve env (p calls st).next_steps st).1
      rw [h] at hp
      exact hp
    rw [ih (calls + 1) _ hst2]

theorem planLoop_calls_exact (env : AgentEnv) (p : Planner)
    (hag : ∀ (i : Nat) (st : ProjectState) (s : PlanStep),
      s ∈ (p i st).next_steps → s.agent ∈ agent_pool) :
    ∀ (n fuel calls : Nat) (st : ProjectState),
    n < fuel → st.status = "in_progress" →
    (∀ (i : Nat) (st' : ProjectState), i < calls + n →
      (p i st').is_complete = false) →
    (∀ st' : ProjectState, (p (calls + n) st').is_complete = true) →
    ∃ fin tr, planLoop env p fuel calls st = Except.ok (some (fin, tr)) ∧
      tr.length = n + 1 := by
  intro n
  induction n with
  | zero =>
    intro fuel calls st hfuel h _ hat
    obtain ⟨f, rfl⟩ : ∃ f, fuel = f + 1 := ⟨fuel - 1, by omega⟩
    rw [planLoop_succ_complete env p f calls st h (by simpa using hat st)]
    exact ⟨_, _, rfl, rfl⟩
  | succ n ih =>
    intro fuel calls st hfuel h hbefore hat
    obtain ⟨f, rfl⟩ : ∃ f, fuel = f + 1 := ⟨fuel - 1, by omega⟩
    have hc : (p calls st).is_complete = false := hbefore calls st (by omega)
    have hexn : (runBatch env (p calls st).next_steps st).exn = none :=
      runBatch_exn_none env _ st (fun s hs => hag calls st s hs)
    rw [planLoop_succ_step env p f calls st h hc hexn]
    have hst2 : ({ (runBatch env (p calls st).next_steps st).state with
        current_phase := (p calls st).next_phase } : ProjectState).status
        = "in_progress" := by
      have hp := (runBatch_preserve env (p calls st).next_steps st).1
      rw [h] at hp
      exact hp
    obtain ⟨fin, tr, hrec, hlen⟩ := ih f (calls + 1) _ (by omega) hst2
      (fun i st' hi => hbefore i st' (by omega))
      (fun st' => by
        have := hat st'
        rw [show calls + 1 + n = calls + (n + 1) by omega]
        exact this)
    rw [hrec]
    exact ⟨fin, _ :: tr, rfl, by simp [hlen]⟩

theorem planLoop_phase_chain (env : AgentEnv) (p : Planner) :
    ∀ (fuel calls : Nat) (st fin : ProjectState) (tr : List ProjectState),
    planLoop env p fuel calls st = Except.ok (some (fin, tr)) →
    ∀ (i : Nat) (h1 : i + 1 < tr.length),
    (tr.get ⟨i + 1, h1⟩).current_phase =
      (p (calls + i) (tr.get ⟨i, Nat.lt_of_succ_lt h1⟩)).next_phase := by
  intro fuel
  induction fuel with
  | zero =>
    intro calls st fin tr hrun
    rw [planLoop_zero] at hrun
    simp at hrun
  | succ fuel ih =>
    intro calls st fin tr hrun i h1
    by_cases h : st.status = "in_progress"
    case neg =>
      rw [planLoop_succ_exited env p fuel calls st h] at hrun
      simp at hrun
      obtain ⟨hfin, htr⟩ := hrun
      subst htr
      simp at h1
    case pos =>
      cases hc : (p calls st).is_complete with
      | true =>
        rw [planLoop_succ_complete env p fuel calls st h hc] at hrun
        simp at hrun
        obtain ⟨hfin, htr⟩ := hrun
        subst htr
        simp at h1
      | false =>
        cases hexn : (runBatch env (p calls st).next_steps st).exn with
        | some e => simp [planLoop, h, hc, hexn] at hrun
        | none =>
          rw [planLoop_succ_step env p fuel calls st h hc hexn] at hrun
          cases hrec : planLoop env p fuel (calls + 1)
              { (runBatch env (p calls st).next_steps st).state with
                current_phase := (p calls st).next_phase } with
          | error e => rw [hrec] at hrun; simp at hrun
          | ok orec =>
            rw [hrec] at hrun
            cases orec with
            | none => simp at hrun
            | some pair =>
              obtain ⟨fin2, tr2⟩ := pair
              simp at hrun
              obtain ⟨hfin, htr⟩ := hrun
              subst htr
              cases i with
              | zero =>
                have hst2 : ({ (runBatch env (p calls st).next_steps st).state with
                    current_phase := (p calls st).next_phase } : ProjectState).status
                    = "in_progress" := by
                  have hp := (runBatch_preserve env (p calls st).next_steps st).1
                  rw [h] at hp
                  exact hp
                obtain ⟨tr0, htr2⟩ :=
                  planLoop_head env p fuel (calls + 1) _ fin2 tr2 hst2 hrec
                subst htr2
                show ({ (runBatch env (p calls st).next_steps st).state with
                  current_phase := (p calls st).next_phase } : ProjectState).current_phase
                  = (p (calls + 0) st).next_phase
                rw [Nat.add_zero]
              | succ j =>
                have h1' : j + 1 < tr2.length := by
                  simp only [List.length_cons] at h1
                  omega
                have := ih (calls + 1) _ fin2 tr2 hrec j h1'
                rw [show calls + (j + 1) = calls + 1 + j by omega]
                exact this

/-! ### Claim theorems -/

/-- Claim C1, counterexample: the claim "a plan step naming an unknown agent
yields a failed `TaskResult` and raises no exception" is false on the code.
At the concrete step `{agent: "planner", task: "analyze requirements"}` (the
name "planner" is not a key of the agent pool), `_execute_agent_task` raises
a `KeyError` — the pool lookup happens before the `try:` block — and no
`TaskResult` of any kind is produced. -/
theorem unknown_agent_not_failed_taskresult :
    execute_agent_task envAllOk "planner" "analyze requirements" [] =
      Except.error "KeyError: planner" ∧
    ¬ ∃ r : TaskResult,
        execute_agent_task envAllOk "planner" "analyze requirements" [] =
          Except.ok r := by
  constructor
  · rfl
  · rintro ⟨r, hr⟩
    rw [execute_agent_task_unknown envAllOk "planner" "analyze requirements" []
      (by decide)] at hr
    exact Except.noConfusion hr

/-- Claim C1 (amended): for every plan step whose agent name is not a key of
the agent pool ('coder', 'executor', 'debugger', 'tester'), executing that
step raises an uncaught `KeyError` naming the missing agent, which escapes
the step execution; no `TaskResult` (failed or otherwise) is produced for
that step. -/
theorem unknown_agent_raises_keyerror (env : AgentEnv) (name task : String)
    (ctx : Ctx) (h : name ∉ agent_pool) :
    execute_agent_task env name task ctx =
      Except.error ("KeyError: " ++ name) ∧
    ¬ ∃ r : TaskResult, execute_agent_task env name task ctx = Except.ok r := by
  refine ⟨execute_agent_task_unknown env name task ctx h, ?_⟩
  rintro ⟨r, hr⟩
  rw [execute_agent_task_unknown env name task ctx h] at hr
  exact Except.noConfusion hr

theorem unknown_agent_raises_keyerror_witness :
    "frontend" ∉ agent_pool ∧
    (execute_agent_task envAllOk "frontend" "build ui" [] =
        Except.error ("KeyError: " ++ "frontend") ∧
      ¬ ∃ r : TaskResult,
          execute_agent_task envAllOk "frontend" "build ui" [] =
            Except.ok r) :=
  ⟨by decide,
   unknown_agent_raises_keyerror envAllOk "frontend" "build ui" [] (by decide)⟩

/-- Claim C2: within one plan batch, if the `TaskResult` of step `k` has
`success = false`, then steps `k+1..n` of that batch are never executed: the
recorded invocation sequence ends exactly at step `k` and consists of
precisely the first `k+1` steps of the batch, in order. -/
theorem failed_step_aborts_batch (env : AgentEnv) (steps : List PlanStep)
    (st : ProjectState) (k : Nat) (p : PlanStep × TaskResult)
    (hk : (runBatch env steps st).invoked.get? k = some p)
    (hfail : p.2.success = false) :
    (runBatch env steps st).invoked.length = k + 1 ∧
    (runBatch env steps st).invoked.map Prod.fst = steps.take (k + 1) := by
  have hlen := runBatch_fail_last env steps st k p hk hfail
  refine ⟨hlen, ?_⟩
  rw [runBatch_invoked_fst env steps st, hlen]

theorem failed_step_aborts_batch_witness :
    (runBatch envCoderRaises
        [⟨"tester", "run tests"⟩, ⟨"coder", "fix"⟩, ⟨"executor", "run"⟩]
        initialProjectState).invoked.get? 1 =
      some (⟨"coder", "fix"⟩,
        ⟨false, none,
         "Error during coder task execution: RuntimeError: model timeout",
         none⟩) ∧
    ((runBatch envCoderRaises
        [⟨"tester", "run tests"⟩, ⟨"coder", "fix"⟩, ⟨"executor", "run"⟩]
        initialProjectState).invoked.length = 1 + 1 ∧
      (runBatch envCoderRaises
        [⟨"tester", "run tests"⟩, ⟨"coder", "fix"⟩, ⟨"executor", "run"⟩]
        initialProjectState).invoked.map Prod.fst =
        [⟨"tester", "run tests"⟩, ⟨"coder", "fix"⟩,
         ⟨"executor", "run"⟩].take (1 + 1)) :=
  ⟨by decide,
   failed_step_aborts_batch envCoderRaises
     [⟨"tester", "run tests"⟩, ⟨"coder", "fix"⟩, ⟨"executor", "run"⟩]
     initialProjectState 1
     (⟨"coder", "fix"⟩,
       ⟨false, none,
        "Error during coder task execution: RuntimeError: model timeout",
        none⟩)
     (by decide) (by decide)⟩

/-- Claim C3: when the underlying agent call raises an exception (any failure
of the model client), the invocation returns a `TaskResult` with
`success = false` whose message contains the stringified exception, and the
exception is not escalated to the caller. -/
theorem agent_exception_failed_taskresult (env : AgentEnv)
    (name task : String) (ctx : Ctx) (e : String)
    (hmem : name ∈ agent_pool) (herr : env name task ctx = Except.error e) :
    execute_agent_task env name task ctx =
      Except.ok { success := false, output := none,
                  message := "Error during " ++ name ++
                             " task execution: " ++ e,
                  next_steps := none } ∧
    ∃ pre post : String,
      "Error during " ++ name ++ " task execution: " ++ e =
        pre ++ e ++ post :=
  ⟨execute_agent_task_of_error env name task ctx e hmem herr,
   ⟨"Error during " ++ name ++ " task execution: ", "", by simp⟩⟩

theorem agent_exception_failed_taskresult_witness :
    "coder" ∈ agent_pool ∧
    envCoderRaises "coder" "implement add" [] =
      Except.error "RuntimeError: model timeout" ∧
    (execute_agent_task envCoderRaises "coder" "implement add" [] =
        Except.ok { success := false, output := none,
                    message := "Error during " ++ "coder" ++
                               " task execution: " ++
                               "RuntimeError: model timeout",
                    next_steps := none } ∧
      ∃ pre post : String,
        "Error during " ++ "coder" ++ " task execution: " ++
            "RuntimeError: model timeout" =
          pre ++ "RuntimeError: model timeout" ++ post) :=
  ⟨by decide, by decide,
   agent_exception_failed_taskresult envCoderRaises "coder" "implement add"
     [] "RuntimeError: model timeout" (by decide) (by decide)⟩

/-- Claim C4: during one `plan_and_execute` invocation the `status` field only
ever goes from "in_progress" to "completed": batch execution never changes it,
every project state observed at a planning call of a terminating run has
status "in_progress" while the final state has status "completed", and a
state whose status is already "completed" exits the loop immediately and
unchanged. -/
theorem status_monotone :
    (∀ (env : AgentEnv) (steps : List PlanStep) (st : ProjectState),
      (runBatch env steps st).state.status = st.status) ∧
    (∀ (env : AgentEnv) (p : Planner) (fuel calls : Nat)
      (st fin : ProjectState) (tr : List ProjectState),
      st.status = "in_progress" →
      planLoop env p fuel calls st = Except.ok (some (fin, tr)) →
      fin.status = "completed" ∧ ∀ s ∈ tr, s.status = "in_progress") ∧
    (∀ (env : AgentEnv) (p : Planner) (fuel calls : Nat) (st : ProjectState),
      st.status = "completed" →
      planLoop env p (fuel + 1) calls st = Except.ok (some (st, []))) :=
  ⟨fun env steps st => (runBatch_preserve env steps st).1,
   fun env p fuel calls st fin tr h hrun =>
     planLoop_invariant env p fuel calls st fin tr h hrun,
   fun env p fuel calls st h =>
     planLoop_succ_exited env p fuel calls st (by rw [h]; decide)⟩

theorem status_monotone_witness :
    (runBatch envAllOk [⟨"coder", "write"⟩] initialProjectState).state.status =
      initialProjectState.status ∧
    (∃ fin tr,
      planLoop envAllOk plannerDoneAtTwo 3 0 initialProjectState =
        Except.ok (some (fin, tr)) ∧
      fin.status = "completed" ∧ ∀ s ∈ tr, s.status = "in_progress") ∧
    planLoop envAllOk plannerDoneAtTwo 3 0
        { initialProjectState with status := "completed" } =
      Except.ok (some ({ initialProjectState with status := "completed" }, [])) :=
  ⟨status_monotone.1 envAllOk [⟨"coder", "write"⟩] initialProjectState,
   ⟨_, _, rfl,
    status_monotone.2.1 envAllOk plannerDoneAtTwo 3 0 initialProjectState _ _
      rfl rfl⟩,
   status_monotone.2.2 envAllOk plannerDoneAtTwo 2 0
     { initialProjectState with status := "completed" } rfl⟩

/-- Claim C5: the loop terminates iff the planner eventually reports
completion.  With a planner stub whose planning call first reports
`is_complete` on call `N` (and not before), the loop performs exactly `N`
planning calls and then returns; and for any planner that never reports
completion (and plans only known agents), no amount of fuel makes the loop
exit — it runs forever. -/
theorem loop_terminates_iff_planner_completes (env : AgentEnv) (p : Planner)
    (N fuel : Nat) (hN : 0 < N) (hfuel : N ≤ fuel)
    (hbefore : ∀ (i : Nat) (st : ProjectState), i + 1 < N →
      (p i st).is_complete = false)
    (hat : ∀ st : ProjectState, (p (N - 1) st).is_complete = true)
    (hag : ∀ (i : Nat) (st : ProjectState) (s : PlanStep),
      s ∈ (p i st).next_steps → s.agent ∈ agent_pool) :
    (∃ fin tr,
      planLoop env p fuel 0 initialProjectState = Except.ok (some (fin, tr)) ∧
      tr.length = N) ∧
    (∀ q : Planner,
      (∀ (i : Nat) (st : ProjectState), (q i st).is_complete = false) →
      (∀ (i : Nat) (st : ProjectState) (s : PlanStep),
        s ∈ (q i st).next_steps → s.agent ∈ agent_pool) →
      ∀ f : Nat, planLoop env q f 0 initialProjectState = Except.ok none) := by
  constructor
  · obtain ⟨n, rfl⟩ : ∃ n, N = n + 1 := ⟨N - 1, by omega⟩
    exact planLoop_calls_exact env p hag n fuel 0 initialProjectState
      (by omega) rfl (fun i st hi => hbefore i st (by omega))
      (fun st => by simpa using hat st)
  · intro q hinc hqag f
    exact planLoop_never env q hinc hqag f 0 initialProjectState rfl

theorem loop_terminates_iff_planner_completes_witness :
    (∃ fin tr,
      planLoop envAllOk plannerDoneAtTwo 3 0 initialProjectState =
        Except.ok (some (fin, tr)) ∧ tr.length = 2) ∧
    (∀ q : Planner,
      (∀ (i : Nat) (st : ProjectState), (q i st).is_complete = false) →
      (∀ (i : Nat) (st : ProjectState) (s : PlanStep),
        s ∈ (q i st).next_steps → s.agent ∈ agent_pool) →
      ∀ f : Nat,
        planLoop envAllOk q f 0 initialProjectState = Except.ok none) :=
  loop_terminates_iff_planner_completes envAllOk plannerDoneAtTwo 2 3
    (by decide) (by decide)
    (by
      intro i st hi
      have hi0 : i = 0 := by omega
      subst hi0
      rfl)
    (fun st => rfl)
    (by
      intro i st s hs
      by_cases hi : i = 0
      · simp [plannerDoneAtTwo, hi] at hs
        rw [hs]
        decide
      · simp [plannerDoneAtTwo, hi] at hs)

/-- Claim C6: after one planning/execution cycle, `results` holds exactly one
entry per agent invoked in that cycle, carrying that agent's most recent
`TaskResult` (overwriting any entry the role had from earlier cycles), while
entries of roles not invoked in the cycle are untouched; and every
invocation's `{phase, agent, task, result}` record of the cycle is appended,
in order, to the `history` sequence. -/
theorem results_overwrite_history_append (env : AgentEnv)
    (steps : List PlanStep) (st : ProjectState)
    (hnd : (keysOf st.results).Nodup) :
    (runBatch env steps st).state.history = st.history ++
      (runBatch env steps st).invoked.map
        (fun p => { phase := st.current_phase, agent := p.1.agent,
                    task := p.1.task, result := p.2 }) ∧
    (∀ (a : String) (r : TaskResult),
      lastFor a (runBatch env steps st).invoked = some r →
      dictGet (runBatch env steps st).state.results a = some r ∧
      countKey (runBatch env steps st).state.results a = 1) ∧
    (∀ a : String, lastFor a (runBatch env steps st).invoked = none →
      dictGet (runBatch env steps st).state.results a = dictGet st.results a) := by
  refine ⟨runBatch_history env steps st, ?_, ?_⟩
  · intro a r hlast
    have hres := runBatch_results env steps st a
    rw [hlast] at hres
    exact ⟨hres,
      countKey_of_dictGet _ a r (runBatch_nodup_keys env steps st hnd) hres⟩
  · intro a hlast
    have hres := runBatch_results env steps st a
    rw [hlast] at hres
    exact hres

theorem results_overwrite_history_append_witness :
    (keysOf initialProjectState.results).Nodup ∧
    lastFor "coder"
      (runBatch envAllOk [⟨"coder", "draft"⟩, ⟨"coder", "revise"⟩]
        initialProjectState).invoked =
      some ⟨true, some "code", "done", none⟩ ∧
    (dictGet (runBatch envAllOk [⟨"coder", "draft"⟩, ⟨"coder", "revise"⟩]
        initialProjectState).state.results "coder" =
      some ⟨true, some "code", "done", none⟩ ∧
    countKey (runBatch envAllOk [⟨"coder", "draft"⟩, ⟨"coder", "revise"⟩]
        initialProjectState).state.results "coder" = 1) ∧
    (runBatch envAllOk [⟨"coder", "draft"⟩, ⟨"coder", "revise"⟩]
        initialProjectState).state.history =
      initialProjectState.history ++
        (runBatch envAllOk [⟨"coder", "draft"⟩, ⟨"coder", "revise"⟩]
          initialProjectState).invoked.map
          (fun p => { phase := initialProjectState.current_phase,
                      agent := p.1.agent, task := p.1.task, result := p.2 }) :=
  ⟨by decide, by decide,
   (results_overwrite_history_append envAllOk
     [⟨"coder", "draft"⟩, ⟨"coder", "revise"⟩] initialProjectState
     (by decide)).2.1 "coder" ⟨true, some "code", "done", none⟩ (by decide),
   (results_overwrite_history_append envAllOk
     [⟨"coder", "draft"⟩, ⟨"coder", "revise"⟩] initialProjectState
     (by decide)).1⟩

/-- Claim C7: `execute_tests` returns the internal test run's result; when
that result has `success = false` it invokes the `_coordinate_with_debugger`
hook with exactly that result's `errors` value before returning, and when the
result has `success = true` the hook is not invoked. -/
theorem tester_hook_on_failure (runTestsImpl : String → TestResults)
    (code : String) :
    (execute_tests runTestsImpl code).1 = runTestsImpl code ∧
    ((runTestsImpl code).success = false →
      (execute_tests runTestsImpl code).2 = some (runTestsImpl code).errors) ∧
    ((runTestsImpl code).success = true →
      (execute_tests runTestsImpl code).2 = none) := by
  refine ⟨?_, ?_, ?_⟩
  · simp only [execute_tests]
    split <;> rfl
  · intro h
    simp [execute_tests, h]
  · intro h
    simp [execute_tests, h]

theorem tester_hook_on_failure_witness :
    (execute_tests runTestsFailing "def add(a, b): return a + b").2 =
      some (some ["AssertionError: expected 3"]) ∧
    (execute_tests run_tests "def add(a, b): return a + b").2 = none :=
  ⟨(tester_hook_on_failure runTestsFailing "def add(a, b): return a + b").2.1
     rfl,
   (tester_hook_on_failure run_tests "def add(a, b): return a + b").2.2 rfl⟩

/-- Claim C8: every `plan_and_execute` invocation starts from a freshly
created project state — status "in_progress", phase "planning", empty
results, context and history — and the state seen by the first planning call
of any terminating run is exactly that fresh state, so nothing carries over
from a previous top-level task. -/
theorem fresh_initial_state :
    initialProjectState.status = "in_progress" ∧
    initialProjectState.current_phase = "planning" ∧
    initialProjectState.results = [] ∧
    initialProjectState.context = [] ∧
    initialProjectState.history = [] ∧
    (∀ (env : AgentEnv) (planner : String → Planner) (task : String)
      (fuel : Nat),
      plan_and_execute env planner task fuel =
        planLoop env (planner task) fuel 0 initialProjectState) ∧
    (∀ (env : AgentEnv) (planner : String → Planner) (task : String)
      (fuel : Nat) (fin : ProjectState) (tr : List ProjectState),
      plan_and_execute env planner task fuel = Except.ok (some (fin, tr)) →
      tr.head? = some initialProjectState) := by
  refine ⟨rfl, rfl, rfl, rfl, rfl, fun _ _ _ _ => rfl, ?_⟩
  intro env planner task fuel fin tr hrun
  obtain ⟨tr0, htr⟩ :=
    planLoop_head env (planner task) fuel 0 initialProjectState fin tr rfl hrun
  rw [htr]
  rfl

theorem fresh_initial_state_witness :
    ∃ fin tr,
      plan_and_execute envAllOk (fun _ => plannerDoneAtTwo)
          "write a function that adds two numbers" 3 =
        Except.ok (some (fin, tr)) ∧
      tr.head? = some initialProjectState :=
  ⟨_, _, rfl,
   fresh_initial_state.2.2.2.2.2.2 envAllOk (fun _ => plannerDoneAtTwo)
     "write a function that adds two numbers" 3 _ _ rfl⟩

/-- Claim C9: at the end of every non-terminal planning iteration the
`current_phase` is set to that iteration's planning result's `next_phase`:
in any terminating run, the project state observed at planning call `i+1`
has as its phase the `next_phase` of the plan produced at call `i` — also
when a step of that iteration's batch failed, since the phase update follows
the batch unconditionally. -/
theorem phase_updated_after_each_iteration (env : AgentEnv) (p : Planner)
    (fuel calls : Nat) (st fin : ProjectState) (tr : List ProjectState)
    (hrun : planLoop env p fuel calls st = Except.ok (some (fin, tr)))
    (i : Nat) (h1 : i + 1 < tr.length) :
    (tr.get ⟨i + 1, h1⟩).current_phase =
      (p (calls + i) (tr.get ⟨i, Nat.lt_of_succ_lt h1⟩)).next_phase :=
  planLoop_phase_chain env p fuel calls st fin tr hrun i h1

theorem phase_updated_after_each_iteration_witness :
    ∃ fin tr,
      planLoop envCoderRaises plannerDoneAtTwo 3 0 initialProjectState =
        Except.ok (some (fin, tr)) ∧
      ∃ h1 : 0 + 1 < tr.length,
        ((tr.get ⟨0 + 1, h1⟩).current_phase =
          (plannerDoneAtTwo (0 + 0)
            (tr.get ⟨0, Nat.lt_of_succ_lt h1⟩)).next_phase) ∧
        ∃ r : TaskResult,
          dictGet (tr.get ⟨0 + 1, h1⟩).results "coder" = some r ∧
          r.success = false := by
  refine ⟨_, _, rfl, by decide, ?_, ?_⟩
  · exact phase_updated_after_each_iteration envCoderRaises plannerDoneAtTwo
      3 0 initialProjectState _ _ rfl 0 (by decide)
  · exact ⟨⟨false, none,
      "Error during coder task execution: RuntimeError: model timeout",
      none⟩, by decide, rfl⟩

/-- Claim C10: the session loop's termination check is case-insensitive —
every user input whose lowercase form is "exit" terminates the session with
the farewell message, and every other input is treated as a new task. -/
theorem exit_check_case_insensitive (s : String) :
    (lowerStr s = "exit" → chat_loop_step s = ChatAction.terminate "Goodbye!") ∧
    (lowerStr s ≠ "exit" → chat_loop_step s = ChatAction.newTask s) := by
  constructor
  · intro h
    simp [chat_loop_step, h]
  · intro h
    simp [chat_loop_step, h]

theorem exit_check_case_insensitive_witness :
    chat_loop_step "EXIT" = ChatAction.terminate "Goodbye!" ∧
    chat_loop_step "Exit" = ChatAction.terminate "Goodbye!" ∧
    chat_loop_step "exit" = ChatAction.terminate "Goodbye!" ∧
    chat_loop_step "build a web app" = ChatAction.newTask "build a web app" :=
  ⟨(exit_check_case_insensitive "EXIT").1 (by decide),
   (exit_check_case_insensitive "Exit").1 (by decide),
   (exit_check_case_insensitive "exit").1 (by decide),
   (exit_check_case_insensitive "build a web app").2 (by decide)⟩
